import Mathlib

/-!
Verification of the ogg-metadata format-identification pipeline.

This file gives a shallow embedding of the library's source
(`src/lib.rs`, `src/vorbis.rs`, `src/opus.rs`, `src/theora.rs`) and proves
properties of the embedded definitions.

Bytes are modelled as `Nat`; machine `u64` arithmetic that can wrap is made
explicit (`u64_wrapping_sub`).  The external ogg packet reader (out of scope
for the library, per its spec) is modelled as a positioned list of read
events: each event is either a delivered packet or a read failure, and a
seek repositions the cursor at a byte offset, making visible exactly the
events at offsets at or beyond the target.
-/

set_option autoImplicit false

namespace OggMeta

/-- Little-endian 16-bit value assembled from two bytes. -/
def le16 (b0 b1 : Nat) : Nat := b0 + 256 * b1

/-- Little-endian 32-bit value assembled from four bytes. -/
def le32 (b0 b1 b2 b3 : Nat) : Nat := b0 + 256 * (b1 + 256 * (b2 + 256 * b3))

/-- Big-endian 24-bit value assembled from three bytes. -/
def be24 (b0 b1 b2 : Nat) : Nat := 256 * (256 * b0 + b1) + b2

/-- Wrapping subtraction on 64-bit machine integers, as performed by the
Rust expression `l - pre_skip` on `u64` in release builds. -/
def u64_wrapping_sub (a b : Nat) : Nat :=
  (2 ^ 64 + a % 2 ^ 64 - b % 2 ^ 64) % 2 ^ 64

/-- The two error kinds of `OggMetadataError` in `src/lib.rs`. -/
inductive OggMetadataError where
  | unrecognizedFormat
  | readError
deriving DecidableEq, Repr

namespace vorbis

/-- The `vorbis::IdentHeader` record. -/
structure IdentHeader where
  channels : Nat
  sample_rate : Nat
deriving DecidableEq, Repr

/-- Embedding of `vorbis::read_header_ident`: a 4-byte little-endian
version that must be 0, then 1 byte of channel count and a 4-byte
little-endian sample rate; any short read is an I/O error. -/
def read_header_ident (packet : List Nat) : Except OggMetadataError IdentHeader :=
  match packet with
  | b0 :: b1 :: b2 :: b3 :: rest =>
    if le32 b0 b1 b2 b3 ≠ 0 then .error .unrecognizedFormat
    else
      match rest with
      | c :: r0 :: r1 :: r2 :: r3 :: _ => .ok ⟨c, le32 r0 r1 r2 r3⟩
      | _ => .error .readError
  | _ => .error .readError

end vorbis

namespace opus

/-- The `opus::IdentHeader` record. -/
structure IdentHeader where
  output_channels : Nat
  pre_skip : Nat
deriving DecidableEq, Repr

/-- Embedding of `opus::read_header_ident`: a 1-byte version that must be
below 16, then 1 byte of output channel count and a 2-byte little-endian
pre-skip; any short read is an I/O error. -/
def read_header_ident (packet : List Nat) : Except OggMetadataError IdentHeader :=
  match packet with
  | [] => .error .readError
  | v :: rest =>
    if 16 ≤ v then .error .unrecognizedFormat
    else
      match rest with
      | ch :: p0 :: p1 :: _ => .ok ⟨ch, le16 p0 p1⟩
      | _ => .error .readError

end opus

namespace theora

/-- The `theora::IdentHeader` record. -/
structure IdentHeader where
  picture_region_width : Nat
  picture_region_height : Nat
deriving DecidableEq, Repr

/-- Embedding of `theora::read_header_ident`: three version bytes and two
2-byte macroblock dimensions are consumed unchecked, then two 3-byte
big-endian picture dimensions are returned; any short read is an I/O
error. -/
def read_header_ident (packet : List Nat) : Except OggMetadataError IdentHeader :=
  match packet with
  | _vmaj :: _vmin :: _vrev :: _f0 :: _f1 :: _g0 :: _g1 ::
      w0 :: w1 :: w2 :: h0 :: h1 :: h2 :: _ =>
    .ok ⟨be24 w0 w1 w2, be24 h0 h1 h2⟩
  | _ => .error .readError

end theora

/-- The `VorbisMetadata` output record (`length_in_samples` is the
`Option` passed through by `parse_format` in `src/lib.rs`). -/
structure VorbisMetadata where
  channels : Nat
  sample_rate : Nat
  length_in_samples : Option Nat
deriving DecidableEq, Repr

/-- The `OpusMetadata` output record. -/
structure OpusMetadata where
  output_channels : Nat
  length_in_48khz_samples : Option Nat
deriving DecidableEq, Repr

/-- The `TheoraMetadata` output record. -/
structure TheoraMetadata where
  pixels_width : Nat
  pixels_height : Nat
deriving DecidableEq, Repr

/-- The public `OggFormat` result type of `src/lib.rs`. -/
inductive OggFormat where
  | vorbis (m : VorbisMetadata)
  | opus (m : OpusMetadata)
  | theora (m : TheoraMetadata)
  | speex
  | skeleton
  | unknown
deriving DecidableEq, Repr

/-- The bare (C-style) codec tag enum of `src/lib.rs`. -/
inductive BareOggFormat where
  | vorbis
  | opus
  | theora
  | speex
  | skeleton
deriving DecidableEq, Repr

/-- The magic sequence for a Vorbis identification header. -/
def vorbis_magic : List Nat := [0x01, 0x76, 0x6f, 0x72, 0x62, 0x69, 0x73]

/-- The magic sequence for an Opus identification header. -/
def opus_magic : List Nat := [0x4f, 0x70, 0x75, 0x73, 0x48, 0x65, 0x61, 0x64]

/-- The magic sequence for a Theora identification header. -/
def theora_magic : List Nat := [0x80, 0x74, 0x68, 0x65, 0x6f, 0x72, 0x61]

/-- The magic sequence for a Speex identification header. -/
def speex_magic : List Nat := [0x53, 0x70, 0x65, 0x65, 0x78, 0x20, 0x20, 0x20]

/-- The magic sequence for a Skeleton fishead header. -/
def skeleton_magic : List Nat := [0x66, 105, 115, 104, 101, 97, 100, 0]

/-- Byte-list counterpart of Rust's slice `starts_with`. -/
def starts_with : List Nat → List Nat → Bool
  | _, [] => true
  | [], _ :: _ => false
  | x :: xs, y :: ys => x == y && starts_with xs ys

/-- Embedding of `identify_packet_data_by_magic` from `src/lib.rs`,
including its dispatch on the first byte and the source's use of
`speex_magic.len()` in the Skeleton arm. -/
def identify_packet_data_by_magic (pck_data : List Nat) :
    Option (Nat × BareOggFormat) :=
  match pck_data with
  | [] => none
  | b :: _ =>
    if b = 0x01 ∧ starts_with pck_data vorbis_magic then
      some (vorbis_magic.length, BareOggFormat.vorbis)
    else if b = 0x4f ∧ starts_with pck_data opus_magic then
      some (opus_magic.length, BareOggFormat.opus)
    else if b = 0x80 ∧ starts_with pck_data theora_magic then
      some (theora_magic.length, BareOggFormat.theora)
    else if b = 0x53 ∧ starts_with pck_data speex_magic then
      some (speex_magic.length, BareOggFormat.speex)
    else if b = 0x66 ∧ starts_with pck_data skeleton_magic then
      some (speex_magic.length, BareOggFormat.skeleton)
    else none

/-- Embedding of `needs_last_packet_absgp` from `src/lib.rs`. -/
def needs_last_packet_absgp (bare_format : BareOggFormat) : Bool :=
  match bare_format with
  | .vorbis => true
  | .opus => true
  | .theora => false
  | .speex => false
  | .skeleton => false

/-- Embedding of `parse_format` from `src/lib.rs`.  The Opus length is the
unchecked `u64` subtraction `l - pre_skip` of the source, modelled as
wrapping subtraction. -/
def parse_format (pck_data : List Nat) (bare_format : BareOggFormat)
    (last_packet_absgp : Option Nat) : Except OggMetadataError OggFormat :=
  match bare_format with
  | .vorbis =>
    match vorbis.read_header_ident pck_data with
    | .error e => .error e
    | .ok ih => .ok (.vorbis ⟨ih.channels, ih.sample_rate, last_packet_absgp⟩)
  | .opus =>
    match opus.read_header_ident pck_data with
    | .error e => .error e
    | .ok ih => .ok (.opus ⟨ih.output_channels,
        last_packet_absgp.map (fun l => u64_wrapping_sub l ih.pre_skip)⟩)
  | .theora =>
    match theora.read_header_ident pck_data with
    | .error e => .error e
    | .ok ih => .ok (.theora ⟨ih.picture_region_width, ih.picture_region_height⟩)
  | .speex => .ok .speex
  | .skeleton => .ok .skeleton

/-- The fields of an ogg packet consumed by `src/lib.rs`. -/
structure Packet where
  data : List Nat
  first_packet : Bool
  last_packet : Bool
  absgp_page : Nat
  stream_serial : Nat
deriving DecidableEq, Repr

/-- One read event of the external packet reader: either a delivered
packet or a read failure (I/O error / end of stream). -/
inductive ReadEvent where
  | packet (p : Packet)
  | ioError
deriving DecidableEq, Repr

/-- Model of the seekable byte source handed to `read_format`: a physical
end position and the reader's events, each tagged with the byte offset at
which it becomes visible after a seek. -/
structure PacketSource where
  end_pos : Nat
  events : List (Nat × ReadEvent)
deriving DecidableEq, Repr

/-- Reader state after seeking to byte offset `pos`: the events at or
beyond that offset. -/
def seek_to (src : PacketSource) (pos : Nat) : List (Nat × ReadEvent) :=
  src.events.filter (fun e => decide (pos ≤ e.1))

/-- Embedding of `seek_before_end` from `src/lib.rs`: seek to
`end_pos - min end_pos offs` bytes from the start. -/
def seek_before_end (src : PacketSource) (offs : Nat) : List (Nat × ReadEvent) :=
  seek_to src (src.end_pos - min src.end_pos offs)

/-- Model of the external reader's `read_packet_expected`: the next event,
failing on a read failure or when no packet remains. -/
def read_packet_expected (st : List (Nat × ReadEvent)) :
    Except OggMetadataError (Packet × List (Nat × ReadEvent)) :=
  match st with
  | [] => .error .readError
  | (_, .ioError) :: _ => .error .readError
  | (_, .packet p) :: rest => .ok (p, rest)

/-- The read loop of `get_absgp_of_last_packet`: read packets until one is
flagged as the last packet of its stream and return its granule
position. -/
def absgp_scan (st : List (Nat × ReadEvent)) : Except OggMetadataError Nat :=
  match st with
  | [] => .error .readError
  | (_, .ioError) :: _ => .error .readError
  | (_, .packet p) :: rest =>
    if p.last_packet then .ok p.absgp_page else absgp_scan rest

/-- Embedding of `get_absgp_of_last_packet` from `src/lib.rs`: seek to
150 KiB before the end, then scan for a last-flagged packet. -/
def get_absgp_of_last_packet (src : PacketSource) : Except OggMetadataError Nat :=
  absgp_scan (seek_before_end src (150 * 1024))

/-- A recorded in-flight stream of the Skeleton resolution: the
`(payload_offset, tag)` pair from magic identification together with the
packet that carried the identification header. -/
abbrev StreamEntry := (Nat × BareOggFormat) × Packet

/-- The `streams` map of `read_format`, keyed by stream serial. -/
abbrev StreamMap := List (Nat × StreamEntry)

/-- Insert-or-replace, the behavior of `HashMap::insert`. -/
def map_insert (m : StreamMap) (k : Nat) (v : StreamEntry) : StreamMap :=
  match m with
  | [] => [(k, v)]
  | (k', v') :: rest =>
    if k' = k then (k, v) :: rest else (k', v') :: map_insert rest k v

/-- Lookup-and-remove, the behavior of `HashMap::remove`. -/
def map_lookup_remove (m : StreamMap) (k : Nat) : Option (StreamEntry × StreamMap) :=
  match m with
  | [] => none
  | (k', v') :: rest =>
    if k' = k then some (v', rest)
    else
      match map_lookup_remove rest k with
      | none => none
      | some (v, rest') => some (v, (k', v') :: rest')

/-- The collect phase of the Skeleton path of `read_format`: read packets
until the Skeleton stream's own last packet; record every first packet of
another stream whose magic matches, and emit `Unknown` for every first
packet whose magic does not match. -/
def collect_streams (skel_serial : Nat) (st : List (Nat × ReadEvent))
    (res : List OggFormat) (streams : StreamMap) :
    Except OggMetadataError (List OggFormat × StreamMap × List (Nat × ReadEvent)) :=
  match st with
  | [] => .error .readError
  | (_, .ioError) :: _ => .error .readError
  | (_, .packet p) :: rest =>
    if p.stream_serial = skel_serial ∧ p.last_packet then .ok (res, streams, rest)
    else if p.first_packet = false then collect_streams skel_serial rest res streams
    else
      match identify_packet_data_by_magic p.data with
      | none => collect_streams skel_serial rest (res ++ [OggFormat.unknown]) streams
      | some idi =>
        collect_streams skel_serial rest res (map_insert streams p.stream_serial (idi, p))

/-- The bounded tail scan of the Skeleton path of `read_format`: while
recorded streams remain, read packets; a read failure ends the scan
without error (the source's `pseudo_try`); a last-flagged packet whose
serial is recorded resolves that stream — fatally if its tag is Skeleton,
otherwise through `parse_format` with the packet's granule position. -/
def scan_streams (streams : StreamMap) (st : List (Nat × ReadEvent))
    (res : List OggFormat) :
    Except OggMetadataError (List OggFormat × StreamMap) :=
  if streams.isEmpty then .ok (res, streams)
  else
    match st with
    | [] => .ok (res, streams)
    | (_, .ioError) :: _ => .ok (res, streams)
    | (_, .packet p) :: rest =>
      if p.last_packet = false then scan_streams streams rest res
      else
        match map_lookup_remove streams p.stream_serial with
        | none => scan_streams streams rest res
        | some ((idi, hp), streams') =>
          if idi.2 = BareOggFormat.skeleton then .error .unrecognizedFormat
          else
            match parse_format (hp.data.drop idi.1) idi.2 (some p.absgp_page) with
            | .error e => .error e
            | .ok fm => scan_streams streams' rest (res ++ [fm])

/-- The leftover finalization of the Skeleton path of `read_format`: every
stream still recorded is parsed without a granule position. -/
def finalize_leftovers (streams : StreamMap) (res : List OggFormat) :
    Except OggMetadataError (List OggFormat) :=
  match streams with
  | [] => .ok res
  | (_, (idi, hp)) :: rest =>
    match parse_format (hp.data.drop idi.1) idi.2 none with
    | .error e => .error e
    | .ok fm => finalize_leftovers rest (res ++ [fm])

/-- Embedding of `read_format` from `src/lib.rs`. -/
def read_format (src : PacketSource) : Except OggMetadataError (List OggFormat) :=
  match read_packet_expected src.events with
  | .error e => .error e
  | .ok (pck, st1) =>
    match identify_packet_data_by_magic pck.data with
    | none => .ok [OggFormat.unknown]
    | some id_inner =>
      let absgp_result : Except OggMetadataError (Option Nat) :=
        if needs_last_packet_absgp id_inner.2 then
          match get_absgp_of_last_packet src with
          | .error e => .error e
          | .ok g => .ok (some g)
        else .ok none
      match absgp_result with
      | .error e => .error e
      | .ok last_packet_absgp =>
        match parse_format (pck.data.drop id_inner.1) id_inner.2 last_packet_absgp with
        | .error e => .error e
        | .ok fmt0 =>
          if id_inner.2 = BareOggFormat.skeleton then
            match collect_streams pck.stream_serial st1 [fmt0] [] with
            | .error e => .error e
            | .ok (res1, streams, _) =>
              match scan_streams streams (seek_before_end src (200 * 1024)) res1 with
              | .error e => .error e
              | .ok (res2, leftovers) => finalize_leftovers leftovers res2
          else .ok [fmt0]

/-- The magic sequence the Magic Dispatcher associates with each tag. -/
def magic : BareOggFormat → List Nat
  | .vorbis => vorbis_magic
  | .opus => opus_magic
  | .theora => theora_magic
  | .speex => speex_magic
  | .skeleton => skeleton_magic

/-- A stream metadata record whose length field, if it has one, came from
a last-flagged packet of the source: for Vorbis the length equals the
granule position of such a packet; for Opus it equals the granule position
of such a packet minus (wrapping `u64` subtraction) a pre-skip parsed from
the payload of some packet of the source. -/
def GoodLen (src : PacketSource) : OggFormat → Prop
  | .vorbis vm => ∀ L, vm.length_in_samples = some L →
      ∃ pos p, (pos, ReadEvent.packet p) ∈ src.events ∧ p.last_packet = true ∧
        L = p.absgp_page
  | .opus om => ∀ L, om.length_in_48khz_samples = some L →
      ∃ pos p, (pos, ReadEvent.packet p) ∈ src.events ∧ p.last_packet = true ∧
        ∃ pos' q n ih, (pos', ReadEvent.packet q) ∈ src.events ∧
          opus.read_header_ident (q.data.drop n) = .ok ih ∧
          L = u64_wrapping_sub p.absgp_page ih.pre_skip
  | _ => True

/-- The recorded header packet of a stream map entry is a packet of the
source. -/
def GoodEntry (src : PacketSource) (e : Nat × StreamEntry) : Prop :=
  ∃ pos, (pos, ReadEvent.packet e.2.2) ∈ src.events

/-- The duration field of a metadata record is absent (trivially true for
records that have no duration field). -/
def length_absent : OggFormat → Prop
  | .vorbis vm => vm.length_in_samples = none
  | .opus om => om.length_in_48khz_samples = none
  | _ => True

/-- The duration field of a metadata record is present. -/
def length_present : OggFormat → Prop
  | .vorbis vm => vm.length_in_samples.isSome = true
  | .opus om => om.length_in_48khz_samples.isSome = true
  | _ => False

/-- The recorded identification header of a stream map entry parses
successfully when finalized without a granule position. -/
def entry_parses (e : Nat × StreamEntry) : Prop :=
  (parse_format (e.2.2.data.drop e.2.1.1) e.2.1.2 none).isOk = true

/-- An Opus stream whose terminal granule position (0) is below its
pre-skip (312): the unchecked `u64` subtraction wraps. -/
def srcC1 : PacketSource :=
  { end_pos := 20,
    events := [
      (0, .packet ⟨opus_magic ++ [0, 2, 0x38, 0x01], true, false, 0, 1⟩),
      (10, .packet ⟨[], false, true, 0, 1⟩) ] }

/-- An Opus stream with pre-skip 312 and terminal granule position 48312:
the reported length (48000) is not the granule position of any packet. -/
def srcC2c : PacketSource :=
  { end_pos := 20,
    events := [
      (0, .packet ⟨opus_magic ++ [0, 2, 0x38, 0x01], true, false, 0, 1⟩),
      (10, .packet ⟨[], false, true, 48312, 1⟩) ] }

/-- A single-logical-stream Vorbis file with channel count 2, sample rate
44100 and terminal granule position 441000. -/
def srcC2w : PacketSource :=
  { end_pos := 20,
    events := [
      (0, .packet ⟨vorbis_magic ++ [0, 0, 0, 0, 2, 0x44, 0xAC, 0, 0], true, false, 0, 1⟩),
      (10, .packet ⟨[], false, true, 441000, 1⟩) ] }

/-- A Vorbis stream (serial 1) multiplexed with a second logical stream
(serial 2) whose last packet (granule 999) precedes the target stream's
last packet (granule 555) in the tail window. -/
def srcC5c : PacketSource :=
  { end_pos := 150,
    events := [
      (0, .packet ⟨vorbis_magic ++ [0, 0, 0, 0, 2, 0x44, 0xAC, 0, 0], true, false, 0, 1⟩),
      (50, .packet ⟨[], false, true, 999, 2⟩),
      (100, .packet ⟨[], false, true, 555, 1⟩) ] }

/-- A Skeleton stream (serial 10) announcing an inner Skeleton stream
(serial 20) whose terminal packet never appears. -/
def srcC3c : PacketSource :=
  { end_pos := 30,
    events := [
      (0, .packet ⟨skeleton_magic, true, false, 0, 10⟩),
      (10, .packet ⟨skeleton_magic, true, false, 0, 20⟩),
      (20, .packet ⟨[], false, true, 0, 10⟩) ] }

/-- A Skeleton stream (serial 10) announcing an inner Skeleton stream
(serial 20) whose terminal packet lies inside the tail window. -/
def srcC3w : PacketSource :=
  { end_pos := 30,
    events := [
      (0, .packet ⟨skeleton_magic, true, false, 0, 10⟩),
      (10, .packet ⟨skeleton_magic, true, false, 0, 20⟩),
      (20, .packet ⟨[], false, true, 0, 10⟩),
      (25, .packet ⟨[], false, true, 77, 20⟩) ] }

/-- A Skeleton stream announcing a Vorbis stream with a well-formed
header; an I/O error ends the tail scan before the Vorbis stream's
terminal packet is seen. -/
def srcC4w : PacketSource :=
  { end_pos := 40,
    events := [
      (0, .packet ⟨skeleton_magic, true, false, 0, 10⟩),
      (10, .packet ⟨vorbis_magic ++ [0, 0, 0, 0, 2, 0x44, 0xAC, 0, 0], true, false, 0, 2⟩),
      (20, .packet ⟨[], false, true, 0, 10⟩),
      (30, .ioError) ] }

/-- A Skeleton stream announcing a Vorbis stream whose recorded header
payload is empty (the announcement carries only the magic); an I/O error
ends the tail scan, and finalizing the leftover stream fails to parse. -/
def srcC4c : PacketSource :=
  { end_pos := 40,
    events := [
      (0, .packet ⟨skeleton_magic, true, false, 0, 10⟩),
      (10, .packet ⟨vorbis_magic, true, false, 0, 2⟩),
      (20, .packet ⟨[], false, true, 0, 10⟩),
      (30, .ioError) ] }

/-- A Skeleton stream announcing a Vorbis stream whose recorded header
payload is empty; the tail scan resolves the stream's terminal packet, and
parsing its header fails. -/
def srcC10w : PacketSource :=
  { end_pos := 40,
    events := [
      (0, .packet ⟨skeleton_magic, true, false, 0, 10⟩),
      (10, .packet ⟨vorbis_magic, true, false, 0, 2⟩),
      (20, .packet ⟨[], false, true, 0, 10⟩),
      (25, .packet ⟨[], false, true, 5, 2⟩) ] }

/-- A file whose first packet matches no known magic sequence. -/
def srcC9w : PacketSource :=
  { end_pos := 10, events := [ (0, .packet ⟨[0x99], true, false, 0, 1⟩) ] }

theorem read_packet_expected_ok {st : List (Nat × ReadEvent)} {p : Packet}
    {rest : List (Nat × ReadEvent)}
    (h : read_packet_expected st = .ok (p, rest)) :
    ∃ pos, st = (pos, ReadEvent.packet p) :: rest := by
  match st with
  | [] => simp [read_packet_expected] at h
  | (pos, .ioError) :: tl => simp [read_packet_expected] at h
  | (pos, .packet q) :: tl =>
    simp [read_packet_expected] at h
    exact ⟨pos, by rw [h.1, h.2]⟩

/-- C7: the Vorbis identification-header parser rejects every nonzero
4-byte little-endian version with UnrecognizedFormat; with version 0 and
enough bytes it returns the next byte as channel count and the following
4-byte little-endian value as sample rate; short reads are I/O errors. -/
theorem C7_vorbis_ident_header :
    (∀ b0 b1 b2 b3 rest, le32 b0 b1 b2 b3 ≠ 0 →
      vorbis.read_header_ident (b0 :: b1 :: b2 :: b3 :: rest) =
        .error .unrecognizedFormat) ∧
    (∀ b0 b1 b2 b3 c r0 r1 r2 r3 rest, le32 b0 b1 b2 b3 = 0 →
      vorbis.read_header_ident
          (b0 :: b1 :: b2 :: b3 :: c :: r0 :: r1 :: r2 :: r3 :: rest) =
        .ok ⟨c, le32 r0 r1 r2 r3⟩) ∧
    (∀ data, data.length < 4 →
      vorbis.read_header_ident data = .error .readError) ∧
    (∀ b0 b1 b2 b3 rest, le32 b0 b1 b2 b3 = 0 → rest.length < 5 →
      vorbis.read_header_ident (b0 :: b1 :: b2 :: b3 :: rest) =
        .error .readError) := by
  refine ⟨?_, ?_, ?_, ?_⟩
  · intro b0 b1 b2 b3 rest h
    simp [vorbis.read_header_ident, h]
  · intro b0 b1 b2 b3 c r0 r1 r2 r3 rest h
    simp [vorbis.read_header_ident, h]
  · intro data h
    match data with
    | [] => rfl
    | [_] => rfl
    | [_, _] => rfl
    | [_, _, _] => rfl
    | _ :: _ :: _ :: _ :: _ => simp at h; omega
  · intro b0 b1 b2 b3 rest h hlen
    match rest with
    | [] => simp [vorbis.read_header_ident, h]
    | [_] => simp [vorbis.read_header_ident, h]
    | [_, _] => simp [vorbis.read_header_ident, h]
    | [_, _, _] => simp [vorbis.read_header_ident, h]
    | [_, _, _, _] => simp [vorbis.read_header_ident, h]
    | _ :: _ :: _ :: _ :: _ :: _ => simp at hlen; omega

theorem C7_witness :
    vorbis.read_header_ident [1, 0, 0, 0, 9] = .error .unrecognizedFormat ∧
    vorbis.read_header_ident [0, 0, 0, 0, 2, 0x44, 0xAC, 0, 0] = .ok ⟨2, 44100⟩ := by
  constructor
  · exact C7_vorbis_ident_header.1 1 0 0 0 [9] (by decide)
  · simpa [le32] using
      C7_vorbis_ident_header.2.1 0 0 0 0 2 0x44 0xAC 0 0 [] (by decide)

/-- C8: the Opus identification-header parser rejects every version byte
at or above 16 with UnrecognizedFormat; below 16 with enough bytes it
returns byte 1 as output channel count and the little-endian value of
bytes 2-3 as pre-skip; short reads are I/O errors. -/
theorem C8_opus_ident_header :
    (∀ v rest, 16 ≤ v →
      opus.read_header_ident (v :: rest) = .error .unrecognizedFormat) ∧
    (∀ v ch p0 p1 rest, v < 16 →
      opus.read_header_ident (v :: ch :: p0 :: p1 :: rest) =
        .ok ⟨ch, le16 p0 p1⟩) ∧
    (opus.read_header_ident [] = .error .readError) ∧
    (∀ v rest, v < 16 → rest.length < 3 →
      opus.read_header_ident (v :: rest) = .error .readError) := by
  refine ⟨?_, ?_, rfl, ?_⟩
  · intro v rest h
    simp [opus.read_header_ident, h]
  · intro v ch p0 p1 rest h
    simp [opus.read_header_ident, Nat.not_le.mpr h]
  · intro v rest h hlen
    match rest with
    | [] => simp [opus.read_header_ident, Nat.not_le.mpr h]
    | [_] => simp [opus.read_header_ident, Nat.not_le.mpr h]
    | [_, _] => simp [opus.read_header_ident, Nat.not_le.mpr h]
    | _ :: _ :: _ :: _ => simp at hlen; omega

theorem C8_witness :
    opus.read_header_ident [16, 0, 0, 0] = .error .unrecognizedFormat ∧
    opus.read_header_ident [1, 2, 0x38, 0x01] = .ok ⟨2, 312⟩ := by
  constructor
  · exact C8_opus_ident_header.1 16 [0, 0, 0] (by decide)
  · simpa [le16] using C8_opus_ident_header.2.1 1 2 0x38 0x01 [] (by decide)

/-- C9: whenever the first packet is read successfully and its payload
matches no known magic, read_format returns a one-element list holding
exactly Unknown, with no error. -/
theorem C9_unrecognized_first_packet :
    ∀ (src : PacketSource) (pck : Packet) (st1 : List (Nat × ReadEvent)),
      read_packet_expected src.events = .ok (pck, st1) →
      identify_packet_data_by_magic pck.data = none →
      read_format src = .ok [OggFormat.unknown] := by
  intro src pck st1 h1 h2
  simp [read_format, h1, h2]

theorem C9_witness : read_format srcC9w = .ok [OggFormat.unknown] :=
  C9_unrecognized_first_packet srcC9w ⟨[0x99], true, false, 0, 1⟩ [] rfl rfl

/-- C1: at the failing input (Opus stream with pre-skip 312 whose
recovered terminal granule position is 0), the unchecked u64 subtraction
underflows and read_format reports the wrapped value 2^64 - 312. -/
theorem C1_opus_underflow_eval :
    read_format srcC1 = .ok [OggFormat.opus ⟨2, some (2 ^ 64 - 312)⟩] ∧
    (0 : Nat) < 312 := by
  exact ⟨rfl, by decide⟩

/-- C2 counterexample: an Opus stream with pre-skip 312 and terminal
granule position 48312 is reported with length 48000, which is not the
granule position of any last-flagged packet of the input. -/
theorem C2_counterexample :
    read_format srcC2c = .ok [OggFormat.opus ⟨2, some 48000⟩] ∧
    (srcC2c.events.all fun e =>
      match e.2 with
      | ReadEvent.packet p => !p.last_packet || (p.absgp_page == 48312)
      | ReadEvent.ioError => true) = true ∧
    (48000 : Nat) ≠ 48312 :=
  ⟨rfl, rfl, by decide⟩

/-- C5 counterexample: with a second logical stream's last packet
(granule 999) ahead of the target stream's last packet (granule 555) in
the seek window, the recovered duration is 999, not the target stream's
555. -/
theorem C5_counterexample :
    read_format srcC5c = .ok [OggFormat.vorbis ⟨2, 44100, some 999⟩] ∧
    (srcC5c.events.all fun e =>
      match e.2 with
      | ReadEvent.packet p =>
        !(p.stream_serial == 1 && p.last_packet) || (p.absgp_page == 555)
      | ReadEvent.ioError => true) = true ∧
    (999 : Nat) ≠ 555 :=
  ⟨rfl, rfl, by decide⟩

/-- C3 counterexample: a Skeleton file announcing an inner Skeleton
stream whose terminal packet is not inside the tail window returns Ok and
silently emits the inner stream as a Skeleton entry. -/
theorem C3_counterexample :
    read_format srcC3c = .ok [OggFormat.skeleton, OggFormat.skeleton] ∧
    read_format srcC3c ≠ .error .unrecognizedFormat := by
  have h1 : read_format srcC3c = .ok [OggFormat.skeleton, OggFormat.skeleton] := rfl
  refine ⟨h1, ?_⟩
  rw [h1]
  simp

/-- C4 counterexample: an I/O error ends the tail scan, but finalizing a
leftover stream whose recorded header payload is empty fails to parse, so
read_format returns an error instead of a partial result list. -/
theorem C4_counterexample :
    read_format srcC4c = .error .readError ∧
    (30, ReadEvent.ioError) ∈ seek_before_end srcC4c (200 * 1024) :=
  ⟨rfl, by decide⟩

theorem starts_with_cons_cons {x y : Nat} {xs ys : List Nat} :
    starts_with (x :: xs) (y :: ys) = true ↔ x = y ∧ starts_with xs ys = true := by
  simp [starts_with]

theorem sw_unique (data : List Nat) (t1 t2 : BareOggFormat)
    (h1 : starts_with data (magic t1) = true)
    (h2 : starts_with data (magic t2) = true) : t1 = t2 := by
  cases data with
  | nil =>
    cases t1 <;>
      simp [magic, vorbis_magic, opus_magic, theora_magic, speex_magic,
        skeleton_magic, starts_with] at h1
  | cons b rest =>
    cases t1 <;> cases t2 <;>
      simp_all [magic, vorbis_magic, opus_magic, theora_magic, speex_magic,
        skeleton_magic, starts_with]

theorem sw_head_vorbis {b : Nat} {rest : List Nat}
    (h : starts_with (b :: rest) vorbis_magic = true) : b = 0x01 :=
  (starts_with_cons_cons.mp (by simpa [vorbis_magic] using h)).1

theorem sw_head_opus {b : Nat} {rest : List Nat}
    (h : starts_with (b :: rest) opus_magic = true) : b = 0x4f :=
  (starts_with_cons_cons.mp (by simpa [opus_magic] using h)).1

theorem sw_head_theora {b : Nat} {rest : List Nat}
    (h : starts_with (b :: rest) theora_magic = true) : b = 0x80 :=
  (starts_with_cons_cons.mp (by simpa [theora_magic] using h)).1

theorem sw_head_speex {b : Nat} {rest : List Nat}
    (h : starts_with (b :: rest) speex_magic = true) : b = 0x53 :=
  (starts_with_cons_cons.mp (by simpa [speex_magic] using h)).1

theorem sw_head_skeleton {b : Nat} {rest : List Nat}
    (h : starts_with (b :: rest) skeleton_magic = true) : b = 0x66 :=
  (starts_with_cons_cons.mp (by simpa [skeleton_magic] using h)).1

theorem cond_vorbis (b : Nat) (rest : List Nat) :
    (b = 0x01 ∧ starts_with (b :: rest) vorbis_magic = true) ↔
      starts_with (b :: rest) vorbis_magic = true :=
  ⟨And.right, fun h => ⟨sw_head_vorbis h, h⟩⟩

theorem cond_opus (b : Nat) (rest : List Nat) :
    (b = 0x4f ∧ starts_with (b :: rest) opus_magic = true) ↔
      starts_with (b :: rest) opus_magic = true :=
  ⟨And.right, fun h => ⟨sw_head_opus h, h⟩⟩

theorem cond_theora (b : Nat) (rest : List Nat) :
    (b = 0x80 ∧ starts_with (b :: rest) theora_magic = true) ↔
      starts_with (b :: rest) theora_magic = true :=
  ⟨And.right, fun h => ⟨sw_head_theora h, h⟩⟩

theorem cond_speex (b : Nat) (rest : List Nat) :
    (b = 0x53 ∧ starts_with (b :: rest) speex_magic = true) ↔
      starts_with (b :: rest) speex_magic = true :=
  ⟨And.right, fun h => ⟨sw_head_speex h, h⟩⟩

theorem cond_skeleton (b : Nat) (rest : List Nat) :
    (b = 0x66 ∧ starts_with (b :: rest) skeleton_magic = true) ↔
      starts_with (b :: rest) skeleton_magic = true :=
  ⟨And.right, fun h => ⟨sw_head_skeleton h, h⟩⟩

theorem identify_eq (data : List Nat) :
    identify_packet_data_by_magic data =
      if starts_with data vorbis_magic then some (7, BareOggFormat.vorbis)
      else if starts_with data opus_magic then some (8, BareOggFormat.opus)
      else if starts_with data theora_magic then some (7, BareOggFormat.theora)
      else if starts_with data speex_magic then some (8, BareOggFormat.speex)
      else if starts_with data skeleton_magic then some (8, BareOggFormat.skeleton)
      else none := by
  cases data with
  | nil =>
    simp [identify_packet_data_by_magic, vorbis_magic, opus_magic, theora_magic,
      speex_magic, skeleton_magic, starts_with]
  | cons b rest =>
    simp only [identify_packet_data_by_magic, cond_vorbis, cond_opus,
      cond_theora, cond_speex, cond_skeleton]
    rfl

theorem identify_some_iff (data : List Nat) (n : Nat) (t : BareOggFormat) :
    identify_packet_data_by_magic data = some (n, t) ↔
      starts_with data (magic t) = true ∧ n = (magic t).length := by
  rw [identify_eq]
  constructor
  · intro h
    split_ifs at h with hv ho ht hs hk <;>
      first
      | (cases h; exact ⟨by simpa [magic] using (by assumption), by decide⟩)
      | cases h
  · rintro ⟨hsw, rfl⟩
    cases t with
    | vorbis =>
      simp only [magic] at hsw
      simp [hsw]
      rfl
    | opus =>
      simp only [magic] at hsw
      have hv : ¬ starts_with data vorbis_magic = true := fun h' => by
        cases sw_unique data .vorbis .opus (by simpa [magic] using h')
          (by simpa [magic] using hsw)
      simp [hsw, hv]
      rfl
    | theora =>
      simp only [magic] at hsw
      have hv : ¬ starts_with data vorbis_magic = true := fun h' => by
        cases sw_unique data .vorbis .theora (by simpa [magic] using h')
          (by simpa [magic] using hsw)
      have ho : ¬ starts_with data opus_magic = true := fun h' => by
        cases sw_unique data .opus .theora (by simpa [magic] using h')
          (by simpa [magic] using hsw)
      simp [hsw, hv, ho]
      rfl
    | speex =>
      simp only [magic] at hsw
      have hv : ¬ starts_with data vorbis_magic = true := fun h' => by
        cases sw_unique data .vorbis .speex (by simpa [magic] using h')
          (by simpa [magic] using hsw)
      have ho : ¬ starts_with data opus_magic = true := fun h' => by
        cases sw_unique data .opus .speex (by simpa [magic] using h')
          (by simpa [magic] using hsw)
      have ht : ¬ starts_with data theora_magic = true := fun h' => by
        cases sw_unique data .theora .speex (by simpa [magic] using h')
          (by simpa [magic] using hsw)
      simp [hsw, hv, ho, ht]
      rfl
    | skeleton =>
      simp only [magic] at hsw
      have hv : ¬ starts_with data vorbis_magic = true := fun h' => by
        cases sw_unique data .vorbis .skeleton (by simpa [magic] using h')
          (by simpa [magic] using hsw)
      have ho : ¬ starts_with data opus_magic = true := fun h' => by
        cases sw_unique data .opus .skeleton (by simpa [magic] using h')
          (by simpa [magic] using hsw)
      have ht : ¬ starts_with data theora_magic = true := fun h' => by
        cases sw_unique data .theora .skeleton (by simpa [magic] using h')
          (by simpa [magic] using hsw)
      have hs : ¬ starts_with data speex_magic = true := fun h' => by
        cases sw_unique data .speex .skeleton (by simpa [magic] using h')
          (by simpa [magic] using hsw)
      simp [hsw, hv, ho, ht, hs]
      rfl

theorem identify_none_iff (data : List Nat) :
    identify_packet_data_by_magic data = none ↔
      ∀ t, starts_with data (magic t) = false := by
  constructor
  · intro h t
    cases hsw : starts_with data (magic t) with
    | false => rfl
    | true =>
      have := (identify_some_iff data (magic t).length t).mpr ⟨hsw, rfl⟩
      rw [h] at this
      cases this
  · intro h
    cases hid : identify_packet_data_by_magic data with
    | none => rfl
    | some v =>
      have hsw := ((identify_some_iff data v.1 v.2).mp (by rw [hid])).1
      rw [h v.2] at hsw
      cases hsw

/-- C6: magic dispatch is total and unambiguous: at most one magic is a
prefix of any payload, a match is returned exactly when one of the five
magics is a prefix, the returned payload offset is that magic's length
(7, 8, 7, 8, 8), and the empty payload matches nothing. -/
theorem C6_magic_dispatch :
    ∀ data : List Nat,
      (∀ t1 t2, starts_with data (magic t1) = true →
        starts_with data (magic t2) = true → t1 = t2) ∧
      (∀ n t, identify_packet_data_by_magic data = some (n, t) ↔
        starts_with data (magic t) = true ∧ n = (magic t).length) ∧
      (identify_packet_data_by_magic data = none ↔
        ∀ t, starts_with data (magic t) = false) ∧
      ((magic BareOggFormat.vorbis).length = 7 ∧
       (magic BareOggFormat.opus).length = 8 ∧
       (magic BareOggFormat.theora).length = 7 ∧
       (magic BareOggFormat.speex).length = 8 ∧
       (magic BareOggFormat.skeleton).length = 8) ∧
      identify_packet_data_by_magic [] = none :=
  fun data =>
    ⟨sw_unique data, fun n t => identify_some_iff data n t,
      identify_none_iff data, by decide, rfl⟩

theorem C6_witness :
    identify_packet_data_by_magic
      [0x4f, 0x70, 0x75, 0x73, 0x48, 0x65, 0x61, 0x64, 1, 2, 3] =
      some (8, BareOggFormat.opus) :=
  ((C6_magic_dispatch _).2.1 8 BareOggFormat.opus).mpr ⟨by decide, by decide⟩

theorem mem_seek_to {src : PacketSource} {pos : Nat} {e : Nat × ReadEvent}
    (h : e ∈ seek_to src pos) : e ∈ src.events :=
  (List.mem_filter.mp h).1

theorem mem_seek_before_end {src : PacketSource} {offs : Nat} {e : Nat × ReadEvent}
    (h : e ∈ seek_before_end src offs) : e ∈ src.events :=
  mem_seek_to h

theorem absgp_scan_ok {st : List (Nat × ReadEvent)} {g : Nat}
    (h : absgp_scan st = .ok g) :
    ∃ pos p, (pos, ReadEvent.packet p) ∈ st ∧ p.last_packet = true ∧
      g = p.absgp_page := by
  induction st with
  | nil => simp [absgp_scan] at h
  | cons ev rest ih =>
    obtain ⟨pos, e⟩ := ev
    cases e with
    | ioError => simp [absgp_scan] at h
    | packet p =>
      by_cases hl : p.last_packet = true
      · simp only [absgp_scan, hl, if_true] at h
        cases h
        exact ⟨pos, p, by simp, hl, rfl⟩
      · simp only [absgp_scan, hl, if_false] at h
        obtain ⟨pos', p', hmem, hlast, hg⟩ := ih h
        exact ⟨pos', p', by simp [hmem], hlast, hg⟩

theorem absgp_scan_first {pre rest : List (Nat × ReadEvent)} {pos : Nat}
    {p : Packet}
    (hpre : ∀ e ∈ pre, ∃ q, e.2 = ReadEvent.packet q ∧ q.last_packet = false)
    (hp : p.last_packet = true) :
    absgp_scan (pre ++ (pos, ReadEvent.packet p) :: rest) = .ok p.absgp_page := by
  induction pre with
  | nil => simp [absgp_scan, hp]
  | cons ev pre' ih =>
    obtain ⟨pos', e⟩ := ev
    obtain ⟨q, hq, hql⟩ := hpre (pos', e) (by simp)
    simp only at hq
    subst hq
    simp only [List.cons_append, absgp_scan, hql, if_false]
    exact ih (fun e' he' => hpre e' (by simp [he']))

theorem map_insert_mem {m : StreamMap} {k : Nat} {v : StreamEntry}
    {e : Nat × StreamEntry} (h : e ∈ map_insert m k v) : e ∈ m ∨ e = (k, v) := by
  induction m with
  | nil =>
    right
    simpa [map_insert] using h
  | cons kv m' ih =>
    obtain ⟨k', v'⟩ := kv
    by_cases hk : k' = k
    · simp only [map_insert, hk, if_true] at h
      rcases List.mem_cons.mp h with rfl | h'
      · exact .inr rfl
      · exact .inl (List.mem_cons_of_mem _ h')
    · simp only [map_insert, hk, if_false] at h
      rcases List.mem_cons.mp h with rfl | h'
      · exact .inl (by simp)
      · rcases ih h' with h'' | h''
        · exact .inl (List.mem_cons_of_mem _ h'')
        · exact .inr h''

theorem map_lookup_remove_some {m : StreamMap} {k : Nat} {v : StreamEntry}
    {m' : StreamMap} (h : map_lookup_remove m k = some (v, m')) :
    (k, v) ∈ m ∧ ∀ e ∈ m', e ∈ m := by
  induction m generalizing m' with
  | nil => simp [map_lookup_remove] at h
  | cons kv tl ih =>
    obtain ⟨k', v'⟩ := kv
    by_cases hk : k' = k
    · simp only [map_lookup_remove, hk, if_true] at h
      cases h
      exact ⟨by simp [hk], fun e he => List.mem_cons_of_mem _ he⟩
    · simp only [map_lookup_remove, hk, if_false] at h
      cases hlr : map_lookup_remove tl k with
      | none => rw [hlr] at h; cases h
      | some pr =>
        obtain ⟨v0, m0⟩ := pr
        rw [hlr] at h
        cases h
        obtain ⟨hmem, hsub⟩ := ih hlr
        refine ⟨List.mem_cons_of_mem _ hmem, ?_⟩
        intro e he
        rcases List.mem_cons.mp he with rfl | he'
        · simp
        · exact List.mem_cons_of_mem _ (hsub e he')

theorem map_lookup_remove_nonempty {m : StreamMap} {k : Nat}
    {v : StreamEntry} {m' : StreamMap}
    (h : map_lookup_remove m k = some (v, m')) : m.isEmpty = false := by
  cases m with
  | nil => simp [map_lookup_remove] at h
  | cons kv tl => rfl

theorem parse_format_vorbis_ok {d : List Nat} {g : Option Nat} {md : OggFormat}
    (h : parse_format d .vorbis g = .ok md) :
    ∃ ih, vorbis.read_header_ident d = .ok ih ∧
      md = .vorbis ⟨ih.channels, ih.sample_rate, g⟩ := by
  cases hih : vorbis.read_header_ident d with
  | error e => simp [parse_format, hih] at h
  | ok ih =>
    simp only [parse_format, hih] at h
    cases h
    exact ⟨ih, rfl, rfl⟩

theorem parse_format_opus_ok {d : List Nat} {g : Option Nat} {md : OggFormat}
    (h : parse_format d .opus g = .ok md) :
    ∃ ih, opus.read_header_ident d = .ok ih ∧
      md = .opus ⟨ih.output_channels,
        g.map (fun l => u64_wrapping_sub l ih.pre_skip)⟩ := by
  cases hih : opus.read_header_ident d with
  | error e => simp [parse_format, hih] at h
  | ok ih =>
    simp only [parse_format, hih] at h
    cases h
    exact ⟨ih, rfl, rfl⟩

theorem parse_format_theora_ok {d : List Nat} {g : Option Nat} {md : OggFormat}
    (h : parse_format d .theora g = .ok md) :
    ∃ ih, theora.read_header_ident d = .ok ih ∧
      md = .theora ⟨ih.picture_region_width, ih.picture_region_height⟩ := by
  cases hih : theora.read_header_ident d with
  | error e => simp [parse_format, hih] at h
  | ok ih =>
    simp only [parse_format, hih] at h
    cases h
    exact ⟨ih, rfl, rfl⟩

theorem parse_format_none_goodlen {src : PacketSource} {d : List Nat}
    {f : BareOggFormat} {md : OggFormat}
    (h : parse_format d f none = .ok md) : GoodLen src md := by
  cases f with
  | vorbis =>
    obtain ⟨ih, _, rfl⟩ := parse_format_vorbis_ok h
    intro L hL
    simp at hL
  | opus =>
    obtain ⟨ih, _, rfl⟩ := parse_format_opus_ok h
    intro L hL
    simp at hL
  | theora =>
    obtain ⟨ih, _, rfl⟩ := parse_format_theora_ok h
    trivial
  | speex => cases h; trivial
  | skeleton => cases h; trivial

theorem parse_format_none_absent {d : List Nat} {f : BareOggFormat}
    {md : OggFormat} (h : parse_format d f none = .ok md) : length_absent md := by
  cases f with
  | vorbis =>
    obtain ⟨ih, _, rfl⟩ := parse_format_vorbis_ok h
    simp [length_absent]
  | opus =>
    obtain ⟨ih, _, rfl⟩ := parse_format_opus_ok h
    simp [length_absent]
  | theora =>
    obtain ⟨ih, _, rfl⟩ := parse_format_theora_ok h
    trivial
  | speex => cases h; trivial
  | skeleton => cases h; trivial

theorem collect_streams_inv {src : PacketSource} {skel : Nat}
    {st : List (Nat × ReadEvent)} {res res' : List OggFormat}
    {streams streams' : StreamMap} {rest' : List (Nat × ReadEvent)}
    (h : collect_streams skel st res streams = .ok (res', streams', rest'))
    (hres : ∀ md ∈ res, GoodLen src md)
    (hstr : ∀ e ∈ streams, GoodEntry src e)
    (hst : ∀ e ∈ st, e ∈ src.events) :
    (∀ md ∈ res', GoodLen src md) ∧ (∀ e ∈ streams', GoodEntry src e) := by
  induction st generalizing res streams with
  | nil => simp [collect_streams] at h
  | cons ev tl ih =>
    obtain ⟨pos, e⟩ := ev
    cases e with
    | ioError => simp [collect_streams] at h
    | packet p =>
      have htl : ∀ e ∈ tl, e ∈ src.events := fun e he => hst e (by simp [he])
      by_cases h1 : p.stream_serial = skel ∧ p.last_packet = true
      · simp only [collect_streams, if_pos h1] at h
        cases h
        exact ⟨hres, hstr⟩
      · by_cases h2 : p.first_packet = false
        · simp only [collect_streams, if_neg h1, if_pos h2] at h
          exact ih h hres hstr htl
        · cases hid : identify_packet_data_by_magic p.data with
          | none =>
            simp only [collect_streams, if_neg h1, if_neg h2, hid] at h
            refine ih h ?_ hstr htl
            intro md hmd
            rcases List.mem_append.mp hmd with h' | h'
            · exact hres md h'
            · simp at h'
              subst h'
              trivial
          | some idi =>
            simp only [collect_streams, if_neg h1, if_neg h2, hid] at h
            refine ih h hres ?_ htl
            intro e he
            rcases map_insert_mem he with h' | h'
            · exact hstr e h'
            · subst h'
              exact ⟨pos, hst (pos, ReadEvent.packet p) (by simp)⟩

theorem scan_streams_inv {src : PacketSource} {streams : StreamMap}
    {st : List (Nat × ReadEvent)} {res out : List OggFormat}
    {leftovers : StreamMap}
    (h : scan_streams streams st res = .ok (out, leftovers))
    (hres : ∀ md ∈ res, GoodLen src md)
    (hstr : ∀ e ∈ streams, GoodEntry src e)
    (hst : ∀ e ∈ st, e ∈ src.events) :
    (∀ md ∈ out, GoodLen src md) ∧ (∀ e ∈ leftovers, GoodEntry src e) := by
  induction st generalizing streams res with
  | nil =>
    have heq : scan_streams streams [] res = .ok (res, streams) := by
      rw [scan_streams.eq_def]
      split <;> rfl
    rw [heq] at h
    cases h
    exact ⟨hres, hstr⟩
  | cons ev tl ih =>
    by_cases hemp : streams.isEmpty = true
    · have heq : scan_streams streams (ev :: tl) res = .ok (res, streams) := by
        rw [scan_streams.eq_def, if_pos hemp]
      rw [heq] at h
      cases h
      exact ⟨hres, hstr⟩
    · obtain ⟨pos, e⟩ := ev
      have htl : ∀ e ∈ tl, e ∈ src.events := fun e he => hst e (by simp [he])
      cases e with
      | ioError =>
        have heq : scan_streams streams ((pos, ReadEvent.ioError) :: tl) res =
            .ok (res, streams) := by
          rw [scan_streams.eq_def, if_neg hemp]
        rw [heq] at h
        cases h
        exact ⟨hres, hstr⟩
      | packet p =>
        by_cases hl : p.last_packet = false
        · have heq : scan_streams streams ((pos, ReadEvent.packet p) :: tl) res =
              scan_streams streams tl res := by
            rw [scan_streams.eq_def, if_neg hemp]
            simp [hl]
          rw [heq] at h
          exact ih h hres hstr htl
        · cases hlr : map_lookup_remove streams p.stream_serial with
          | none =>
            have heq : scan_streams streams ((pos, ReadEvent.packet p) :: tl) res =
                scan_streams streams tl res := by
              rw [scan_streams.eq_def, if_neg hemp]
              simp [hl, hlr]
            rw [heq] at h
            exact ih h hres hstr htl
          | some pr =>
            obtain ⟨⟨idi, hp⟩, streams'⟩ := pr
            by_cases hsk : idi.2 = BareOggFormat.skeleton
            · have heq : scan_streams streams ((pos, ReadEvent.packet p) :: tl) res =
                  .error .unrecognizedFormat := by
                rw [scan_streams.eq_def, if_neg hemp]
                simp [hl, hlr, hsk]
              rw [heq] at h
              cases h
            · cases hpf : parse_format (hp.data.drop idi.1) idi.2 (some p.absgp_page) with
              | error e' =>
                have heq : scan_streams streams ((pos, ReadEvent.packet p) :: tl) res =
                    .error e' := by
                  rw [scan_streams.eq_def, if_neg hemp]
                  simp [hl, hlr, hsk, hpf]
                rw [heq] at h
                cases h
              | ok fm =>
                have heq : scan_streams streams ((pos, ReadEvent.packet p) :: tl) res =
                    scan_streams streams' tl (res ++ [fm]) := by
                  rw [scan_streams.eq_def, if_neg hemp]
                  simp [hl, hlr, hsk, hpf]
                rw [heq] at h
                have hlast : p.last_packet = true := by
                  cases hb : p.last_packet
                  · exact absurd hb hl
                  · rfl
                have hpmem : (pos, ReadEvent.packet p) ∈ src.events :=
                  hst (pos, ReadEvent.packet p) (by simp)
                have hentry : (p.stream_serial, (idi, hp)) ∈ streams :=
                  (map_lookup_remove_some hlr).1
                have hsub : ∀ e ∈ streams', e ∈ streams :=
                  (map_lookup_remove_some hlr).2
                refine ih h ?_ (fun e he => hstr e (hsub e he)) htl
                intro md hmd
                rcases List.mem_append.mp hmd with h' | h'
                · exact hres md h'
                · simp at h'
                  subst h'
                  cases ht : idi.2 with
                  | vorbis =>
                    rw [ht] at hpf
                    obtain ⟨ihh, hok, rfl⟩ := parse_format_vorbis_ok hpf
                    intro L hL
                    simp at hL
                    exact ⟨pos, p, hpmem, hlast, hL.symm⟩
                  | opus =>
                    rw [ht] at hpf
                    obtain ⟨ihh, hok, rfl⟩ := parse_format_opus_ok hpf
                    intro L hL
                    simp at hL
                    obtain ⟨pos', hq⟩ := hstr (p.stream_serial, (idi, hp)) hentry
                    exact ⟨pos, p, hpmem, hlast, pos', hp, idi.1, ihh, hq, hok,
                      hL.symm⟩
                  | theora =>
                    rw [ht] at hpf
                    obtain ⟨ihh, hok, rfl⟩ := parse_format_theora_ok hpf
                    trivial
                  | speex =>
                    rw [ht] at hpf
                    cases hpf
                    trivial
                  | skeleton => exact absurd ht hsk

theorem finalize_leftovers_goodlen {src : PacketSource} {streams : StreamMap}
    {res out : List OggFormat}
    (h : finalize_leftovers streams res = .ok out)
    (hres : ∀ md ∈ res, GoodLen src md) :
    ∀ md ∈ out, GoodLen src md := by
  induction streams generalizing res with
  | nil =>
    simp only [finalize_leftovers] at h
    cases h
    exact hres
  | cons kv tl ih =>
    obtain ⟨k, idi, hp⟩ := kv
    cases hpf : parse_format (hp.data.drop idi.1) idi.2 none with
    | error e => simp [finalize_leftovers, hpf] at h
    | ok fm =>
      simp only [finalize_leftovers, hpf] at h
      refine ih h ?_
      intro md hmd
      rcases List.mem_append.mp hmd with h' | h'
      · exact hres md h'
      · simp at h'
        subst h'
        exact parse_format_none_goodlen hpf

theorem finalize_leftovers_ok_necessary {streams : StreamMap}
    {res out : List OggFormat}
    (h : finalize_leftovers streams res = .ok out) :
    ∀ e ∈ streams, entry_parses e := by
  induction streams generalizing res with
  | nil => simp
  | cons kv tl ih =>
    obtain ⟨k, idi, hp⟩ := kv
    cases hpf : parse_format (hp.data.drop idi.1) idi.2 none with
    | error e => simp [finalize_leftovers, hpf] at h
    | ok fm =>
      simp only [finalize_leftovers, hpf] at h
      intro e he
      rcases List.mem_cons.mp he with rfl | he'
      · simp [entry_parses, hpf, Except.isOk, Except.toBool]
      · exact ih h e he'

theorem finalize_leftovers_ok_of {streams : StreamMap} {res : List OggFormat}
    (h : ∀ e ∈ streams, entry_parses e) :
    ∃ tl, finalize_leftovers streams res = .ok (res ++ tl) ∧
      tl.length = streams.length ∧ ∀ md ∈ tl, length_absent md := by
  induction streams generalizing res with
  | nil => exact ⟨[], by simp [finalize_leftovers], rfl, by simp⟩
  | cons kv tl ih =>
    obtain ⟨k, idi, hp⟩ := kv
    have hpk := h (k, (idi, hp)) (by simp)
    simp only [entry_parses] at hpk
    obtain ⟨fm, hpf⟩ : ∃ fm,
        parse_format (hp.data.drop idi.1) idi.2 none = .ok fm := by
      cases hx : parse_format (hp.data.drop idi.1) idi.2 none with
      | error e => rw [hx] at hpk; simp [Except.isOk, Except.toBool] at hpk
      | ok fm => exact ⟨fm, rfl⟩
    obtain ⟨tl', h1, h2, h3⟩ := @ih (res ++ [fm])
      (fun e he => h e (by simp [he]))
    refine ⟨fm :: tl', ?_, by simp [h2], ?_⟩
    · simp only [finalize_leftovers, hpf]
      rw [h1]
      simp
    · intro md hmd
      rcases List.mem_cons.mp hmd with rfl | hmd'
      · exact parse_format_none_absent hpf
      · exact h3 md hmd'

theorem read_format_skeleton_scan_err {src : PacketSource} {pck : Packet}
    {st1 : List (Nat × ReadEvent)} {n : Nat} {res1 : List OggFormat}
    {streams : StreamMap} {rest2 : List (Nat × ReadEvent)} {e : OggMetadataError}
    (h1 : read_packet_expected src.events = .ok (pck, st1))
    (h2 : identify_packet_data_by_magic pck.data = some (n, BareOggFormat.skeleton))
    (h3 : collect_streams pck.stream_serial st1 [OggFormat.skeleton] [] =
      .ok (res1, streams, rest2))
    (h4 : scan_streams streams (seek_before_end src (200 * 1024)) res1 = .error e) :
    read_format src = .error e := by
  simp [read_format, h1, h2, h3, h4, needs_last_packet_absgp, parse_format]

theorem read_format_skeleton_scan_ok {src : PacketSource} {pck : Packet}
    {st1 : List (Nat × ReadEvent)} {n : Nat} {res1 res2 : List OggFormat}
    {streams leftovers : StreamMap} {rest2 : List (Nat × ReadEvent)}
    (h1 : read_packet_expected src.events = .ok (pck, st1))
    (h2 : identify_packet_data_by_magic pck.data = some (n, BareOggFormat.skeleton))
    (h3 : collect_streams pck.stream_serial st1 [OggFormat.skeleton] [] =
      .ok (res1, streams, rest2))
    (h4 : scan_streams streams (seek_before_end src (200 * 1024)) res1 =
      .ok (res2, leftovers)) :
    read_format src = finalize_leftovers leftovers res2 := by
  simp [read_format, h1, h2, h3, h4, needs_last_packet_absgp, parse_format]

theorem read_format_skeleton_collect_err {src : PacketSource} {pck : Packet}
    {st1 : List (Nat × ReadEvent)} {n : Nat} {e : OggMetadataError}
    (h1 : read_packet_expected src.events = .ok (pck, st1))
    (h2 : identify_packet_data_by_magic pck.data = some (n, BareOggFormat.skeleton))
    (h3 : collect_streams pck.stream_serial st1 [OggFormat.skeleton] [] = .error e) :
    read_format src = .error e := by
  simp [read_format, h1, h2, h3, needs_last_packet_absgp, parse_format]

theorem read_format_needs_absgp_err {src : PacketSource} {pck : Packet}
    {st1 : List (Nat × ReadEvent)} {n : Nat} {t : BareOggFormat}
    {e : OggMetadataError}
    (h1 : read_packet_expected src.events = .ok (pck, st1))
    (h2 : identify_packet_data_by_magic pck.data = some (n, t))
    (hneeds : needs_last_packet_absgp t = true)
    (h4 : get_absgp_of_last_packet src = .error e) :
    read_format src = .error e := by
  simp [read_format, h1, h2, hneeds, h4]

theorem read_format_needs_eq {src : PacketSource} {pck : Packet}
    {st1 : List (Nat × ReadEvent)} {n : Nat} {t : BareOggFormat} {g : Nat}
    (h1 : read_packet_expected src.events = .ok (pck, st1))
    (h2 : identify_packet_data_by_magic pck.data = some (n, t))
    (hneeds : needs_last_packet_absgp t = true)
    (h4 : get_absgp_of_last_packet src = .ok g)
    (ht : t ≠ BareOggFormat.skeleton) :
    read_format src =
      match parse_format (pck.data.drop n) t (some g) with
      | .error e => .error e
      | .ok fmt0 => .ok [fmt0] := by
  simp [read_format, h1, h2, hneeds, h4, ht]

theorem read_format_noneeds_eq {src : PacketSource} {pck : Packet}
    {st1 : List (Nat × ReadEvent)} {n : Nat} {t : BareOggFormat}
    (h1 : read_packet_expected src.events = .ok (pck, st1))
    (h2 : identify_packet_data_by_magic pck.data = some (n, t))
    (hneeds : needs_last_packet_absgp t = false)
    (ht : t ≠ BareOggFormat.skeleton) :
    read_format src =
      match parse_format (pck.data.drop n) t none with
      | .error e => .error e
      | .ok fmt0 => .ok [fmt0] := by
  simp [read_format, h1, h2, hneeds, ht]

theorem scan_streams_skip {streams : StreamMap} {pre rest : List (Nat × ReadEvent)}
    {res : List OggFormat}
    (hpre : ∀ e ∈ pre, ∃ q, e.2 = ReadEvent.packet q ∧
      (q.last_packet = false ∨ map_lookup_remove streams q.stream_serial = none)) :
    scan_streams streams (pre ++ rest) res = scan_streams streams rest res := by
  induction pre with
  | nil => rfl
  | cons ev pre' ih =>
    obtain ⟨pos, e⟩ := ev
    obtain ⟨q, hq, hcond⟩ := hpre (pos, e) (by simp)
    simp only at hq
    subst hq
    by_cases hemp : streams.isEmpty = true
    · have hL : scan_streams streams
          ((pos, ReadEvent.packet q) :: (pre' ++ rest)) res = .ok (res, streams) := by
        rw [scan_streams.eq_def, if_pos hemp]
      have hR : scan_streams streams rest res = .ok (res, streams) := by
        rw [scan_streams.eq_def, if_pos hemp]
      rw [List.cons_append, hL, hR]
    · have hstep : scan_streams streams
          ((pos, ReadEvent.packet q) :: (pre' ++ rest)) res =
          scan_streams streams (pre' ++ rest) res := by
        rw [scan_streams.eq_def, if_neg hemp]
        rcases hcond with hc | hc
        · simp [hc]
        · by_cases hql : q.last_packet = false
          · simp [hql]
          · simp [hql, hc]
      rw [List.cons_append, hstep, ih (fun e' he' => hpre e' (by simp [he']))]

theorem scan_streams_resolve {streams streams' : StreamMap} {pos : Nat}
    {p hp : Packet} {rest : List (Nat × ReadEvent)} {res : List OggFormat}
    {idi : Nat × BareOggFormat}
    (hlast : p.last_packet = true)
    (hlr : map_lookup_remove streams p.stream_serial = some ((idi, hp), streams')) :
    scan_streams streams ((pos, ReadEvent.packet p) :: rest) res =
      if idi.2 = BareOggFormat.skeleton then .error .unrecognizedFormat
      else
        match parse_format (hp.data.drop idi.1) idi.2 (some p.absgp_page) with
        | .error e => .error e
        | .ok fm => scan_streams streams' rest (res ++ [fm]) := by
  rw [scan_streams.eq_def,
    if_neg (by simp [map_lookup_remove_nonempty hlr])]
  simp [hlast, hlr]

/-- C3 (amended): when the first packet is a Skeleton header and an inner
Skeleton stream was recorded during the collect phase, read_format fails
with UnrecognizedFormat as soon as the bounded tail scan observes a
last-flagged packet of the inner Skeleton stream (the first qualifying
packet of the window being that packet). -/
theorem C3_nested_skeleton :
    ∀ (src : PacketSource) (pck : Packet) (st1 : List (Nat × ReadEvent))
      (n : Nat) (res1 : List OggFormat) (streams streams' : StreamMap)
      (rest2 pre rest : List (Nat × ReadEvent)) (pos : Nat) (p hp : Packet)
      (idi : Nat × BareOggFormat),
      read_packet_expected src.events = .ok (pck, st1) →
      identify_packet_data_by_magic pck.data = some (n, BareOggFormat.skeleton) →
      collect_streams pck.stream_serial st1 [OggFormat.skeleton] [] =
        .ok (res1, streams, rest2) →
      seek_before_end src (200 * 1024) = pre ++ (pos, ReadEvent.packet p) :: rest →
      (∀ e ∈ pre, ∃ q, e.2 = ReadEvent.packet q ∧
        (q.last_packet = false ∨ map_lookup_remove streams q.stream_serial = none)) →
      p.last_packet = true →
      map_lookup_remove streams p.stream_serial = some ((idi, hp), streams') →
      idi.2 = BareOggFormat.skeleton →
      read_format src = .error .unrecognizedFormat := by
  intro src pck st1 n res1 streams streams' rest2 pre rest pos p hp idi
    h1 h2 h3 h4 h5 h6 h7 h8
  have hscan : scan_streams streams (seek_before_end src (200 * 1024)) res1 =
      .error .unrecognizedFormat := by
    rw [h4, scan_streams_skip h5, scan_streams_resolve h6 h7, if_pos h8]
  exact read_format_skeleton_scan_err h1 h2 h3 hscan

theorem C3_witness : read_format srcC3w = .error .unrecognizedFormat := by
  refine C3_nested_skeleton srcC3w ⟨skeleton_magic, true, false, 0, 10⟩
    [(10, .packet ⟨skeleton_magic, true, false, 0, 20⟩),
     (20, .packet ⟨[], false, true, 0, 10⟩),
     (25, .packet ⟨[], false, true, 77, 20⟩)]
    8 [OggFormat.skeleton] [(20, ((8, BareOggFormat.skeleton),
      ⟨skeleton_magic, true, false, 0, 20⟩))] []
    [(25, .packet ⟨[], false, true, 77, 20⟩)]
    [(0, .packet ⟨skeleton_magic, true, false, 0, 10⟩),
     (10, .packet ⟨skeleton_magic, true, false, 0, 20⟩),
     (20, .packet ⟨[], false, true, 0, 10⟩)]
    [] 25 ⟨[], false, true, 77, 20⟩ ⟨skeleton_magic, true, false, 0, 20⟩
    (8, BareOggFormat.skeleton) rfl rfl rfl rfl ?_ rfl rfl rfl
  intro e he
  fin_cases he
  · exact ⟨⟨skeleton_magic, true, false, 0, 10⟩, rfl, Or.inl rfl⟩
  · exact ⟨⟨skeleton_magic, true, false, 0, 20⟩, rfl, Or.inl rfl⟩
  · exact ⟨⟨[], false, true, 0, 10⟩, rfl, Or.inr rfl⟩

/-- C4 (amended): a read failure (I/O error or exhausted window) during
the bounded tail scan ends the scan without propagating, leaving the
current results and the unresolved streams; and, provided every stream
still unresolved has a parseable recorded header, read_format returns a
partial result list in which every leftover stream appears with its
length field absent. -/
theorem C4_scan_soft_failure :
    (∀ (streams : StreamMap) (pos : Nat) (rest : List (Nat × ReadEvent))
        (res : List OggFormat),
      scan_streams streams ((pos, ReadEvent.ioError) :: rest) res =
        .ok (res, streams)) ∧
    (∀ (streams : StreamMap) (res : List OggFormat),
      scan_streams streams [] res = .ok (res, streams)) ∧
    (∀ (src : PacketSource) (pck : Packet) (st1 : List (Nat × ReadEvent))
        (n : Nat) (res1 res2 : List OggFormat) (streams leftovers : StreamMap)
        (rest2 : List (Nat × ReadEvent)),
      read_packet_expected src.events = .ok (pck, st1) →
      identify_packet_data_by_magic pck.data = some (n, BareOggFormat.skeleton) →
      collect_streams pck.stream_serial st1 [OggFormat.skeleton] [] =
        .ok (res1, streams, rest2) →
      scan_streams streams (seek_before_end src (200 * 1024)) res1 =
        .ok (res2, leftovers) →
      (∀ e ∈ leftovers, entry_parses e) →
      ∃ tl, read_format src = .ok (res2 ++ tl) ∧ tl.length = leftovers.length ∧
        ∀ md ∈ tl, length_absent md) := by
  refine ⟨?_, ?_, ?_⟩
  · intro streams pos rest res
    rw [scan_streams.eq_def]
    split <;> rfl
  · intro streams res
    rw [scan_streams.eq_def]
    split <;> rfl
  · intro src pck st1 n res1 res2 streams leftovers rest2 h1 h2 h3 h4 h5
    obtain ⟨tl, hfin, hlen, habs⟩ := @finalize_leftovers_ok_of leftovers res2 h5
    exact ⟨tl, by rw [read_format_skeleton_scan_ok h1 h2 h3 h4, hfin], hlen, habs⟩

theorem C4_witness :
    ∃ tl, read_format srcC4w = .ok ([OggFormat.skeleton] ++ tl) ∧
      tl.length = 1 ∧ ∀ md ∈ tl, length_absent md := by
  refine C4_scan_soft_failure.2.2 srcC4w ⟨skeleton_magic, true, false, 0, 10⟩
    [(10, .packet ⟨vorbis_magic ++ [0, 0, 0, 0, 2, 0x44, 0xAC, 0, 0],
        true, false, 0, 2⟩),
     (20, .packet ⟨[], false, true, 0, 10⟩),
     (30, .ioError)]
    8 [OggFormat.skeleton] [OggFormat.skeleton]
    [(2, ((7, BareOggFormat.vorbis),
      ⟨vorbis_magic ++ [0, 0, 0, 0, 2, 0x44, 0xAC, 0, 0], true, false, 0, 2⟩))]
    [(2, ((7, BareOggFormat.vorbis),
      ⟨vorbis_magic ++ [0, 0, 0, 0, 2, 0x44, 0xAC, 0, 0], true, false, 0, 2⟩))]
    [(30, .ioError)]
    rfl rfl rfl rfl ?_
  intro e he
  rw [List.mem_singleton] at he
  subst he
  rfl

/-- C10: the local soft-failure recovery of the Skeleton tail scan covers
only packet-read failures; a parse failure of a recorded stream's
identification header — during the scan or during leftover finalization —
propagates and fails the whole read_format call (and a successful
finalization requires every leftover header to parse). -/
theorem C10_parse_error_propagation :
    (∀ (streams : StreamMap) (res out : List OggFormat),
      finalize_leftovers streams res = .ok out → ∀ e ∈ streams, entry_parses e) ∧
    (∀ (src : PacketSource) (pck : Packet) (st1 : List (Nat × ReadEvent))
        (n : Nat) (res1 : List OggFormat) (streams : StreamMap)
        (rest2 : List (Nat × ReadEvent)) (e : OggMetadataError),
      read_packet_expected src.events = .ok (pck, st1) →
      identify_packet_data_by_magic pck.data = some (n, BareOggFormat.skeleton) →
      collect_streams pck.stream_serial st1 [OggFormat.skeleton] [] =
        .ok (res1, streams, rest2) →
      scan_streams streams (seek_before_end src (200 * 1024)) res1 = .error e →
      read_format src = .error e) ∧
    (∀ (src : PacketSource) (pck : Packet) (st1 : List (Nat × ReadEvent))
        (n : Nat) (res1 res2 : List OggFormat) (streams leftovers : StreamMap)
        (rest2 : List (Nat × ReadEvent)) (e : OggMetadataError),
      read_packet_expected src.events = .ok (pck, st1) →
      identify_packet_data_by_magic pck.data = some (n, BareOggFormat.skeleton) →
      collect_streams pck.stream_serial st1 [OggFormat.skeleton] [] =
        .ok (res1, streams, rest2) →
      scan_streams streams (seek_before_end src (200 * 1024)) res1 =
        .ok (res2, leftovers) →
      finalize_leftovers leftovers res2 = .error e →
      read_format src = .error e) := by
  refine ⟨?_, ?_, ?_⟩
  · intro streams res out h
    exact finalize_leftovers_ok_necessary h
  · intro src pck st1 n res1 streams rest2 e h1 h2 h3 h4
    exact read_format_skeleton_scan_err h1 h2 h3 h4
  · intro src pck st1 n res1 res2 streams leftovers rest2 e h1 h2 h3 h4 h5
    rw [read_format_skeleton_scan_ok h1 h2 h3 h4, h5]

theorem C10_witness : read_format srcC10w = .error .readError :=
  C10_parse_error_propagation.2.1 srcC10w ⟨skeleton_magic, true, false, 0, 10⟩
    [(10, .packet ⟨vorbis_magic, true, false, 0, 2⟩),
     (20, .packet ⟨[], false, true, 0, 10⟩),
     (25, .packet ⟨[], false, true, 5, 2⟩)]
    8 [OggFormat.skeleton]
    [(2, ((7, BareOggFormat.vorbis), ⟨vorbis_magic, true, false, 0, 2⟩))]
    [(25, .packet ⟨[], false, true, 5, 2⟩)] .readError
    rfl rfl rfl rfl

theorem seek_pos_eq (E offs : Nat) :
    E - min E offs = Int.toNat (max 0 ((E : Int) - offs)) := by
  omega

/-- C5 (amended): the duration finder seeks to max(0, file_end - 150 KiB)
(the Skeleton path seeks to max(0, file_end - 200 KiB)) and then returns
the granule position of the first packet it reads that is flagged as the
last packet of its logical stream, regardless of which logical stream that
packet belongs to. -/
theorem C5_tail_seek_window :
    (∀ src : PacketSource, get_absgp_of_last_packet src =
      absgp_scan (seek_to src
        (Int.toNat (max 0 ((src.end_pos : Int) - 150 * 1024))))) ∧
    (∀ src : PacketSource, seek_before_end src (200 * 1024) =
      seek_to src (Int.toNat (max 0 ((src.end_pos : Int) - 200 * 1024)))) ∧
    (∀ (src : PacketSource) (pre rest : List (Nat × ReadEvent)) (pos : Nat)
        (p : Packet),
      seek_before_end src (150 * 1024) = pre ++ (pos, ReadEvent.packet p) :: rest →
      (∀ e ∈ pre, ∃ q, e.2 = ReadEvent.packet q ∧ q.last_packet = false) →
      p.last_packet = true →
      get_absgp_of_last_packet src = .ok p.absgp_page) := by
  refine ⟨?_, ?_, ?_⟩
  · intro src
    simp only [get_absgp_of_last_packet, seek_before_end, seek_pos_eq]
    norm_num
  · intro src
    simp only [seek_before_end, seek_pos_eq]
    norm_num
  · intro src pre rest pos p h4 h5 h6
    simp only [get_absgp_of_last_packet]
    rw [h4]
    exact absgp_scan_first h5 h6

theorem C5_witness : get_absgp_of_last_packet srcC2w = .ok 441000 := by
  refine C5_tail_seek_window.2.2 srcC2w
    [(0, .packet ⟨vorbis_magic ++ [0, 0, 0, 0, 2, 0x44, 0xAC, 0, 0],
        true, false, 0, 1⟩)]
    [] 10 ⟨[], false, true, 441000, 1⟩ rfl ?_ rfl
  intro e he
  rw [List.mem_singleton] at he
  subst he
  exact ⟨⟨vorbis_magic ++ [0, 0, 0, 0, 2, 0x44, 0xAC, 0, 0],
    true, false, 0, 1⟩, rfl, rfl⟩

/-- C2 (amended): every length field present in a read_format result is
derived from the granule position of a last-flagged packet of the source
(equal to it for Vorbis; equal to it minus the parsed pre-skip, wrapping,
for Opus); in the single-stream Vorbis/Opus path the produced metadata
always carries a present length; and parse_format passes the granule
argument through to the length field exactly (present iff supplied). -/
theorem C2_length_provenance :
    (∀ (src : PacketSource) (mds : List OggFormat),
      read_format src = .ok mds → ∀ md ∈ mds, GoodLen src md) ∧
    (∀ (src : PacketSource) (pck : Packet) (st1 : List (Nat × ReadEvent))
        (n : Nat) (t : BareOggFormat) (mds : List OggFormat),
      read_packet_expected src.events = .ok (pck, st1) →
      identify_packet_data_by_magic pck.data = some (n, t) →
      t = BareOggFormat.vorbis ∨ t = BareOggFormat.opus →
      read_format src = .ok mds →
      ∃ md, mds = [md] ∧ length_present md) ∧
    (∀ (d : List Nat) (g : Nat) (vm : VorbisMetadata),
      parse_format d BareOggFormat.vorbis (some g) = .ok (.vorbis vm) →
      vm.length_in_samples = some g) ∧
    (∀ (d : List Nat) (vm : VorbisMetadata),
      parse_format d BareOggFormat.vorbis none = .ok (.vorbis vm) →
      vm.length_in_samples = none) ∧
    (∀ (d : List Nat) (g : Nat) (om : OpusMetadata),
      parse_format d BareOggFormat.opus (some g) = .ok (.opus om) →
      ∃ ih, opus.read_header_ident d = .ok ih ∧
        om.length_in_48khz_samples = some (u64_wrapping_sub g ih.pre_skip)) ∧
    (∀ (d : List Nat) (om : OpusMetadata),
      parse_format d BareOggFormat.opus none = .ok (.opus om) →
      om.length_in_48khz_samples = none) := by
  refine ⟨?_, ?_, ?_, ?_, ?_, ?_⟩
  · -- every present length comes from a last-flagged packet
    intro src mds h md hmd
    cases hrpe : read_packet_expected src.events with
    | error e => simp [read_format, hrpe] at h
    | ok pr =>
      obtain ⟨pck, st1⟩ := pr
      obtain ⟨pos0, hev⟩ := read_packet_expected_ok hrpe
      cases hid : identify_packet_data_by_magic pck.data with
      | none =>
        simp only [read_format, hrpe, hid] at h
        cases h
        simp at hmd
        subst hmd
        trivial
      | some idi =>
        obtain ⟨n, t⟩ := idi
        cases t with
        | vorbis =>
          cases habs : get_absgp_of_last_packet src with
          | error e =>
            rw [read_format_needs_absgp_err hrpe hid rfl habs] at h
            cases h
          | ok g =>
            rw [read_format_needs_eq hrpe hid rfl habs (by simp)] at h
            cases hpf : parse_format (pck.data.drop n) BareOggFormat.vorbis
                (some g) with
            | error e => rw [hpf] at h; cases h
            | ok fmt0 =>
              rw [hpf] at h
              cases h
              simp at hmd
              subst hmd
              obtain ⟨ihh, hok, rfl⟩ := parse_format_vorbis_ok hpf
              intro L hL
              simp at hL
              have habs' : absgp_scan (seek_before_end src (150 * 1024)) =
                  .ok g := habs
              obtain ⟨pos, p, hmem, hlast, hgp⟩ := absgp_scan_ok habs'
              exact ⟨pos, p, mem_seek_before_end hmem, hlast, by rw [← hL, hgp]⟩
        | opus =>
          cases habs : get_absgp_of_last_packet src with
          | error e =>
            rw [read_format_needs_absgp_err hrpe hid rfl habs] at h
            cases h
          | ok g =>
            rw [read_format_needs_eq hrpe hid rfl habs (by simp)] at h
            cases hpf : parse_format (pck.data.drop n) BareOggFormat.opus
                (some g) with
            | error e => rw [hpf] at h; cases h
            | ok fmt0 =>
              rw [hpf] at h
              cases h
              simp at hmd
              subst hmd
              obtain ⟨ihh, hok, rfl⟩ := parse_format_opus_ok hpf
              intro L hL
              simp at hL
              have habs' : absgp_scan (seek_before_end src (150 * 1024)) =
                  .ok g := habs
              obtain ⟨pos, p, hmem, hlast, hgp⟩ := absgp_scan_ok habs'
              refine ⟨pos, p, mem_seek_before_end hmem, hlast,
                pos0, pck, n, ihh, ?_, hok, by rw [← hL, hgp]⟩
              rw [hev]
              simp
        | theora =>
          rw [read_format_noneeds_eq hrpe hid rfl (by simp)] at h
          cases hpf : parse_format (pck.data.drop n) BareOggFormat.theora none with
          | error e => rw [hpf] at h; cases h
          | ok fmt0 =>
            rw [hpf] at h
            cases h
            simp at hmd
            subst hmd
            obtain ⟨ihh, hok, rfl⟩ := parse_format_theora_ok hpf
            trivial
        | speex =>
          rw [read_format_noneeds_eq hrpe hid rfl (by simp)] at h
          cases hpf : parse_format (pck.data.drop n) BareOggFormat.speex none with
          | error e => rw [hpf] at h; cases h
          | ok fmt0 =>
            rw [hpf] at h
            cases h
            simp at hmd
            subst hmd
            cases hpf
            trivial
        | skeleton =>
          cases hc : collect_streams pck.stream_serial st1 [OggFormat.skeleton]
              [] with
          | error e =>
            rw [read_format_skeleton_collect_err hrpe hid hc] at h
            cases h
          | ok tr =>
            obtain ⟨res1, streams, rest2⟩ := tr
            cases hs : scan_streams streams (seek_before_end src (200 * 1024))
                res1 with
            | error e =>
              rw [read_format_skeleton_scan_err hrpe hid hc hs] at h
              cases h
            | ok pr2 =>
              obtain ⟨res2, leftovers⟩ := pr2
              rw [read_format_skeleton_scan_ok hrpe hid hc hs] at h
              have hst1 : ∀ e ∈ st1, e ∈ src.events := by
                intro e he
                rw [hev]
                simp [he]
              have hgood : ∀ md' ∈ [OggFormat.skeleton], GoodLen src md' := by
                intro md' hmd'
                simp at hmd'
                subst hmd'
                trivial
              have hnil : ∀ e ∈ ([] : StreamMap), GoodEntry src e := by simp
              obtain ⟨hres1, hstr1⟩ := collect_streams_inv hc hgood hnil hst1
              obtain ⟨hres2, hstr2⟩ := scan_streams_inv hs hres1
                hstr1 (fun e he => mem_seek_before_end he)
              exact finalize_leftovers_goodlen h hres2 md hmd
  · -- single-stream Vorbis/Opus always carries a present length
    intro src pck st1 n t mds h1 h2 ht h
    rcases ht with rfl | rfl
    · cases habs : get_absgp_of_last_packet src with
      | error e =>
        rw [read_format_needs_absgp_err h1 h2 rfl habs] at h
        cases h
      | ok g =>
        rw [read_format_needs_eq h1 h2 rfl habs (by simp)] at h
        cases hpf : parse_format (pck.data.drop n) BareOggFormat.vorbis
            (some g) with
        | error e => rw [hpf] at h; cases h
        | ok fmt0 =>
          rw [hpf] at h
          cases h
          obtain ⟨ihh, hok, rfl⟩ := parse_format_vorbis_ok hpf
          exact ⟨_, rfl, by simp [length_present]⟩
    · cases habs : get_absgp_of_last_packet src with
      | error e =>
        rw [read_format_needs_absgp_err h1 h2 rfl habs] at h
        cases h
      | ok g =>
        rw [read_format_needs_eq h1 h2 rfl habs (by simp)] at h
        cases hpf : parse_format (pck.data.drop n) BareOggFormat.opus
            (some g) with
        | error e => rw [hpf] at h; cases h
        | ok fmt0 =>
          rw [hpf] at h
          cases h
          obtain ⟨ihh, hok, rfl⟩ := parse_format_opus_ok hpf
          exact ⟨_, rfl, by simp [length_present]⟩
  · intro d g vm h
    obtain ⟨ihh, _, heq⟩ := parse_format_vorbis_ok h
    simp at heq
    rw [heq]
  · intro d vm h
    obtain ⟨ihh, _, heq⟩ := parse_format_vorbis_ok h
    simp at heq
    rw [heq]
  · intro d g om h
    obtain ⟨ihh, hok, heq⟩ := parse_format_opus_ok h
    simp at heq
    exact ⟨ihh, hok, by rw [heq]⟩
  · intro d om h
    obtain ⟨ihh, _, heq⟩ := parse_format_opus_ok h
    simp at heq
    rw [heq]

theorem C2_witness :
    ∃ md, [OggFormat.vorbis ⟨2, 44100, some 441000⟩] = [md] ∧
      length_present md :=
  C2_length_provenance.2.1 srcC2w
    ⟨vorbis_magic ++ [0, 0, 0, 0, 2, 0x44, 0xAC, 0, 0], true, false, 0, 1⟩
    [(10, .packet ⟨[], false, true, 441000, 1⟩)] 7 BareOggFormat.vorbis
    [OggFormat.vorbis ⟨2, 44100, some 441000⟩]
    rfl rfl (Or.inl rfl) rfl

end OggMeta
